import Mathlib

/-!
Verification of the Instagram feed-sync pipeline (`sync_instagram.py`).

The script is shallowly embedded: network interaction is modelled by an
oracle (`Network`) giving the response of each HTTP request per attempt,
the cache directory is a list of file names, and the manifest file is an
optional list of entries.  Every function of the script that the claims
touch is translated directly from the source.
-/

/-- `MAX_POSTS = 9` (source line 40). -/
def MAX_POSTS : Nat := 9

/-- `MAX_RETRIES = 3` (source line 45). -/
def MAX_RETRIES : Nat := 3

/-- `RETRY_DELAY = 5` (source line 46). -/
def RETRY_DELAY : Nat := 5

/-- A raw `edge.node` of the profile response: missing keys are read with
`.get(key, "")`, so absent fields appear as the empty string. -/
structure Node where
  shortcode : String
  display_url : String
deriving DecidableEq, Repr

/-- A normalized post dict `{shortcode, display_url, permalink}`. -/
structure Post where
  shortcode : String
  display_url : String
  permalink : String
deriving DecidableEq, Repr

/-- `f"https://www.instagram.com/p/{shortcode}/"`. -/
def mkPermalink (sc : String) : String :=
  "https://www.instagram.com/p/" ++ sc ++ "/"

/-- Python truthiness test `if shortcode and display_url` on a node. -/
def validNode (n : Node) : Bool :=
  n.shortcode ≠ "" && n.display_url ≠ ""

/-- The post dict appended for an accepted node. -/
def nodeToPost (n : Node) : Post :=
  ⟨n.shortcode, n.display_url, mkPermalink n.shortcode⟩

/-- `get_posts_from_profile` (source lines 110-131): iterate over
`edges[:MAX_POSTS]` and keep the entries with non-empty shortcode and
display_url. -/
def get_posts_from_profile (edges : List Node) : List Post :=
  (edges.take MAX_POSTS).filterMap
    (fun n => if validNode n then some (nodeToPost n) else none)

/-- One element of `item["image_versions2"]["candidates"]`. -/
structure Candidate where
  url : String
deriving DecidableEq, Repr

/-- A raw item of the feed-API response. -/
structure ApiItem where
  code : String
  candidates : List Candidate
deriving DecidableEq, Repr

/-- `candidates[0]["url"] if candidates else ""` (source line 152). -/
def itemDisplayUrl (it : ApiItem) : String :=
  match it.candidates with
  | [] => ""
  | c :: _ => c.url

/-- Truthiness test `if shortcode and display_url` on a feed item. -/
def validItem (it : ApiItem) : Bool :=
  it.code ≠ "" && itemDisplayUrl it ≠ ""

/-- The post dict appended for an accepted feed item. -/
def itemToPost (it : ApiItem) : Post :=
  ⟨it.code, itemDisplayUrl it, mkPermalink it.code⟩

/-- The item-parsing loop of `get_posts_via_api` (source lines 144-160):
iterate over `items[:MAX_POSTS]` keeping valid entries. -/
def parse_feed_items (items : List ApiItem) : List Post :=
  (items.take MAX_POSTS).filterMap
    (fun it => if validItem it then some (itemToPost it) else none)

/-- The `user` object of the `web_profile_info` response. -/
structure UserData where
  id : String
  edges : List Node
deriving DecidableEq, Repr

/-- Outcome of one attempt of the profile-metadata request: `ok` is an
HTTP 200 whose JSON may or may not contain a user object; `fail` covers
429, other non-200 statuses and transport errors, which all lead to a
retry (source lines 87-105). -/
inductive ProfileResp where
  | ok (user : Option UserData)
  | fail
deriving DecidableEq, Repr

/-- Outcome of one attempt of the feed-API request (source lines 138-169). -/
inductive FeedResp where
  | ok (items : List ApiItem)
  | fail
deriving DecidableEq, Repr

/-- The environment oracle: responses of each kind of request per attempt
number, success of a media GET per URL and attempt, and success of
`os.remove` per file name. -/
structure Network where
  profileResp : Nat → ProfileResp
  feedResp : Nat → FeedResp
  dlOk : String → Nat → Bool
  removeOk : String → Bool

/-- Retry loop of `get_user_id` (source lines 87-107), unrolled over the
remaining attempts; `attempt` is the 1-based attempt counter.  A 200
response whose JSON has a truthy `user.id` returns immediately; anything
else falls through to the next attempt. -/
def get_user_id_go (pr : Nat → ProfileResp) (attempt : Nat) :
    Nat → Option (String × UserData)
  | 0 => none
  | remaining + 1 =>
    match pr attempt with
    | ProfileResp.ok (some u) =>
      if u.id ≠ "" then some (u.id, u)
      else get_user_id_go pr (attempt + 1) remaining
    | ProfileResp.ok none => get_user_id_go pr (attempt + 1) remaining
    | ProfileResp.fail => get_user_id_go pr (attempt + 1) remaining

/-- `get_user_id` (source lines 83-107): up to `MAX_RETRIES` attempts,
`None` on exhaustion. -/
def get_user_id (pr : Nat → ProfileResp) : Option (String × UserData) :=
  get_user_id_go pr 1 MAX_RETRIES

/-- Retry loop of `get_posts_via_api` (source lines 138-171): a 200
response immediately returns the parsed items (possibly the empty list);
failures retry; exhaustion returns `None`. -/
def get_posts_via_api_go (fr : Nat → FeedResp) (attempt : Nat) :
    Nat → Option (List Post)
  | 0 => none
  | remaining + 1 =>
    match fr attempt with
    | FeedResp.ok items => some (parse_feed_items items)
    | FeedResp.fail => get_posts_via_api_go fr (attempt + 1) remaining

/-- `get_posts_via_api` (source lines 134-171). -/
def get_posts_via_api (fr : Nat → FeedResp) : Option (List Post) :=
  get_posts_via_api_go fr 1 MAX_RETRIES

/-- Result of `download_image`: whether it returned `True`, how many GET
attempts it made, and the list of sleeps it performed (each of
`RETRY_DELAY` time units). -/
structure DlOut where
  success : Bool
  attempts : Nat
  delays : List Nat
deriving DecidableEq, Repr

/-- Retry loop of `download_image` (source lines 174-188).  On a
successful GET the body is written to `fname` (the file appears in the
directory listing) and the function returns `True`; on failure it sleeps
`RETRY_DELAY` unless this was the last attempt, then retries. -/
def download_image_go (ok : Nat → Bool) (fs : List String) (fname : String)
    (attempt : Nat) : Nat → DlOut × List String
  | 0 => (⟨false, 0, []⟩, fs)
  | remaining + 1 =>
    if ok attempt then (⟨true, 1, []⟩, fname :: fs)
    else
      (⟨(download_image_go ok fs fname (attempt + 1) remaining).1.success,
        (download_image_go ok fs fname (attempt + 1) remaining).1.attempts + 1,
        (if remaining > 0 then [RETRY_DELAY] else [])
          ++ (download_image_go ok fs fname (attempt + 1) remaining).1.delays⟩,
       (download_image_go ok fs fname (attempt + 1) remaining).2)

/-- `download_image` (source lines 174-188). -/
def download_image (ok : Nat → Bool) (fs : List String) (fname : String) :
    DlOut × List String :=
  download_image_go ok fs fname 1 MAX_RETRIES

/-- `current_files = {f"{sc}.jpg" for sc in current_shortcodes}`
(source line 195), kept as a list. -/
def current_file_names (shortcodes : List String) : List String :=
  shortcodes.map (fun sc => sc ++ ".jpg")

/-- Python's `filename.endswith(".jpg")`, rendered as a character-level
suffix test. -/
def endsWithJpg (f : String) : Bool :=
  List.isSuffixOf ".jpg".data f.data

/-- The deletion condition of `cleanup_old_images` (source line 197). -/
def staleJpg (cur : List String) (f : String) : Bool :=
  endsWithJpg f && !(cur.contains f)

/-- `cleanup_old_images` (source lines 191-199): walk the directory
listing removing stale `.jpg` files.  `os.remove` has no surrounding
`try`, so a failed removal raises out of the loop: the result is then
`Except.error` carrying the directory contents at the moment of the
crash (earlier removals persist, later files are untouched). -/
def cleanup_old_images (rOk : String → Bool) (cur : List String) :
    List String → Except (List String) (List String)
  | [] => Except.ok []
  | f :: rest =>
    if staleJpg cur f then
      if rOk f then cleanup_old_images rOk cur rest
      else Except.error (f :: rest)
    else
      match cleanup_old_images rOk cur rest with
      | Except.ok kept => Except.ok (f :: kept)
      | Except.error crash => Except.error (f :: crash)

/-- One entry of the manifest JSON (source lines 259-262). -/
structure MEntry where
  permalink : String
  media_url : String
deriving DecidableEq, Repr

/-- The dict appended to `posts_data` for a processed post. -/
def postEntry (p : Post) : MEntry :=
  ⟨p.permalink, "./data/ig_images/" ++ p.shortcode ++ ".jpg"⟩

/-- The cache file name `f"{shortcode}.jpg"` of a post. -/
def postFile (p : Post) : String :=
  p.shortcode ++ ".jpg"

/-- State of the main processing loop of `sync_instagram` (source lines
242-267): directory contents, accumulated `posts_data` and `shortcodes`,
plus two observers — the total number of media GET attempts issued and
the shortcodes whose media was freshly downloaded. -/
structure LoopState where
  fs : List String
  posts_data : List MEntry
  shortcodes : List String
  dlAttempts : Nat
  dlSuccess : List String
deriving DecidableEq, Repr

/-- The `for i, post in enumerate(posts[:MAX_POSTS])` loop (source lines
245-267): an already-cached file skips the download; otherwise the image
is downloaded and on failure the post is skipped (`continue`). -/
def process_posts (net : Network) : List Post → LoopState → LoopState
  | [], st => st
  | p :: rest, st =>
    if postFile p ∈ st.fs then
      process_posts net rest
        { st with
          posts_data := st.posts_data ++ [postEntry p],
          shortcodes := st.shortcodes ++ [p.shortcode] }
    else
      if (download_image (net.dlOk p.display_url) st.fs (postFile p)).1.success then
        process_posts net rest
          { fs := (download_image (net.dlOk p.display_url) st.fs (postFile p)).2,
            posts_data := st.posts_data ++ [postEntry p],
            shortcodes := st.shortcodes ++ [p.shortcode],
            dlAttempts := st.dlAttempts
              + (download_image (net.dlOk p.display_url) st.fs (postFile p)).1.attempts,
            dlSuccess := st.dlSuccess ++ [p.shortcode] }
      else
        process_posts net rest
          { st with
            fs := (download_image (net.dlOk p.display_url) st.fs (postFile p)).2,
            dlAttempts := st.dlAttempts
              + (download_image (net.dlOk p.display_url) st.fs (postFile p)).1.attempts }

/-- Post acquisition as performed by `sync_instagram` (source lines
219-237): resolve the profile, take its embedded posts, and if fewer
than `MAX_POSTS` were found consult the feed API, replacing the list
only when the API produced a truthy (non-empty) result. -/
def resolve_posts (net : Network) : Option (List Post) :=
  match get_user_id net.profileResp with
  | none => none
  | some (_, u) =>
    if (get_posts_from_profile u.edges).length < MAX_POSTS then
      match get_posts_via_api net.feedResp with
      | some api =>
        if api.isEmpty then some (get_posts_from_profile u.edges)
        else some api
      | none => some (get_posts_from_profile u.edges)
    else
      some (get_posts_from_profile u.edges)

/-- Persistent state owned by the pipeline: the cache directory's file
names and the manifest file's content (`none` = file absent). -/
structure RunState where
  fs : List String
  manifest : Option (List MEntry)
deriving DecidableEq, Repr

/-- `create_session` (source lines 68-80): with a truthy session id the
cookie is set; otherwise a warning is logged and the session is returned
without cookies. -/
structure Session where
  hasCookie : Bool
  warnedNoCookie : Bool
deriving DecidableEq, Repr

/-- `create_session` (source lines 68-80). -/
def create_session (session_id : String) : Session :=
  if session_id ≠ "" then ⟨true, false⟩ else ⟨false, true⟩

/-- Observable outcome of a run of `sync_instagram`: process exit code,
whether it ended in an unhandled exception, the persisted state, and the
observers needed by the claims (the selected posts, the final
`shortcodes` list, and the number of media GET attempts). -/
structure SyncOut where
  exitCode : Nat
  crashed : Bool
  state : RunState
  selected : List Post
  shortcodes : List String
  dlAttempts : Nat
deriving DecidableEq, Repr

/-- Initial loop state over the starting directory contents. -/
def initLoop (fs : List String) : LoopState :=
  ⟨fs, [], [], 0, []⟩

/-- Tail of `sync_instagram` after the processing loop (source lines
269-281): abort if `posts_data` is empty, else clean up old images (an
`os.remove` failure raises — unhandled — before the manifest is
written), then overwrite the manifest. -/
def syncFinish (net : Network) (st0 : RunState) (sel : List Post)
    (ls : LoopState) : SyncOut :=
  if ls.posts_data.isEmpty then
    ⟨1, false, ⟨ls.fs, st0.manifest⟩, sel, ls.shortcodes, ls.dlAttempts⟩
  else
    match cleanup_old_images net.removeOk
        (current_file_names ls.shortcodes) ls.fs with
    | Except.error fsCrash =>
      ⟨1, true, ⟨fsCrash, st0.manifest⟩, sel, ls.shortcodes, ls.dlAttempts⟩
    | Except.ok fs2 =>
      ⟨0, false, ⟨fs2, some ls.posts_data⟩, sel, ls.shortcodes, ls.dlAttempts⟩

/-- `sync_instagram` from the selected posts onward (source lines
242-281). -/
def syncSelected (net : Network) (st0 : RunState) (sel : List Post) : SyncOut :=
  syncFinish net st0 sel (process_posts net sel (initLoop st0.fs))

/-- Python's `str.strip()`: drop leading and trailing whitespace,
rendered at the character level. -/
def stripStr (s : String) : String :=
  ⟨((s.data.dropWhile Char.isWhitespace).reverse.dropWhile
      Char.isWhitespace).reverse⟩

/-- `sync_instagram` (source lines 202-281).  `sessionId` is the raw
value of the `INSTAGRAM_SESSION_ID` environment variable (defaulted to
`""`); the script strips it and exits with status 1 when it is empty,
when the profile cannot be resolved, when no posts were extracted, or
when no post could be processed. -/
def sync_instagram (net : Network) (sessionId : String) (st0 : RunState) :
    SyncOut :=
  if stripStr sessionId = "" then ⟨1, false, st0, [], [], 0⟩
  else
    match resolve_posts net with
    | none => ⟨1, false, st0, [], [], 0⟩
    | some posts =>
      if posts.isEmpty then ⟨1, false, st0, [], [], 0⟩
      else syncSelected net st0 (posts.take MAX_POSTS)

/-- The Post Extractor as the spec words it for claim C3: the first
up-to-9 valid entries of the raw input, in input order (filter first,
then truncate). -/
def spec_first_valid_profile (edges : List Node) : List Post :=
  ((edges.filter validNode).take MAX_POSTS).map nodeToPost

/-- Ten raw profile entries, the first malformed (empty shortcode), the
remaining nine valid. -/
def edgesTen : List Node :=
  [⟨"", "u0"⟩, ⟨"s1", "u1"⟩, ⟨"s2", "u2"⟩, ⟨"s3", "u3"⟩, ⟨"s4", "u4"⟩,
   ⟨"s5", "u5"⟩, ⟨"s6", "u6"⟩, ⟨"s7", "u7"⟩, ⟨"s8", "u8"⟩, ⟨"s9", "u9"⟩]

/-- A profile whose two embedded posts share the shortcode `X` with two
different media URLs; the first URL always fails to download, the second
always succeeds. -/
def netDup : Network :=
  { profileResp := fun _ => ProfileResp.ok (some ⟨"42", [⟨"X", "uA"⟩, ⟨"X", "uB"⟩]⟩),
    feedResp := fun _ => FeedResp.fail,
    dlOk := fun u _ => u == "uB",
    removeOk := fun _ => true }

/-- A profile with a single well-formed post `Y` whose download always
succeeds; every removal succeeds. -/
def netY : Network :=
  { profileResp := fun _ => ProfileResp.ok (some ⟨"7", [⟨"Y", "uY"⟩]⟩),
    feedResp := fun _ => FeedResp.fail,
    dlOk := fun _ _ => true,
    removeOk := fun _ => true }

/-- Like `netY` except that removing the stale cache file `old.jpg`
fails. -/
def netC4 : Network :=
  { netY with removeOk := fun f => !(f == "old.jpg") }

/-- A profile with posts `Y`, `X`, `X` where only `Y`'s media URL
downloads successfully. -/
def netC10 : Network :=
  { profileResp := fun _ => ProfileResp.ok (some ⟨"7", [⟨"Y", "g"⟩, ⟨"X", "b"⟩, ⟨"X", "b"⟩]⟩),
    feedResp := fun _ => FeedResp.fail,
    dlOk := fun u _ => u == "g",
    removeOk := fun _ => true }

/-- An environment in which the profile request fails on every attempt. -/
def netFail : Network :=
  { profileResp := fun _ => ProfileResp.fail,
    feedResp := fun _ => FeedResp.fail,
    dlOk := fun _ _ => true,
    removeOk := fun _ => true }

/-- Empty persisted state: empty cache, no manifest file. -/
def stEmpty : RunState := ⟨[], none⟩

/-- Persisted state holding one stale non-jpg file and one stale jpg. -/
def stMixed : RunState := ⟨["stale.png", "old.jpg"], none⟩

/-- Persisted state holding one stale jpg file. -/
def stOld : RunState := ⟨["old.jpg"], none⟩

/-! ### General helper lemmas -/

theorem filterMap_if {α β : Type} (p : α → Bool) (f : α → β) :
    ∀ l : List α,
      l.filterMap (fun a => if p a then some (f a) else none)
        = (l.filter p).map f
  | [] => rfl
  | a :: l => by
    rw [List.filterMap_cons, List.filter_cons]
    by_cases h : p a <;> simp [h, filterMap_if p f l]

theorem download_image_go_spec (ok : Nat → Bool) (fs : List String)
    (fname : String) :
    ∀ (r a : Nat),
      ((download_image_go ok fs fname a r).1.success = true →
        (download_image_go ok fs fname a r).2 = fname :: fs
          ∧ 1 ≤ (download_image_go ok fs fname a r).1.attempts)
      ∧ ((download_image_go ok fs fname a r).1.success = false →
        (download_image_go ok fs fname a r).2 = fs
          ∧ (download_image_go ok fs fname a r).1.attempts = r)
      ∧ (download_image_go ok fs fname a r).1.attempts ≤ r
      ∧ (download_image_go ok fs fname a r).1.delays
          = List.replicate ((download_image_go ok fs fname a r).1.attempts - 1)
              RETRY_DELAY
  | 0, a => by simp [download_image_go]
  | r + 1, a => by
    have ih := download_image_go_spec ok fs fname r (a + 1)
    by_cases h : ok a
    · simp [download_image_go, h]
    · simp only [download_image_go, h, if_false, Bool.false_eq_true]
      rcases hs : (download_image_go ok fs fname (a + 1) r).1.success with _ | _
      · obtain ⟨hfs, hat⟩ := ih.2.1 hs
        refine ⟨by simp [hs], fun _ => ⟨hfs, by omega⟩, by omega, ?_⟩
        rcases r with _ | m
        · simp [download_image_go]
        · have : (0 : Nat) < m + 1 := Nat.succ_pos m
          simp only [hat, ih.2.2.2, hat, if_pos this, gt_iff_lt, this]
          have h1 : m + 1 + 1 - 1 = (m + 1 - 1) + 1 := by omega
          rw [h1, List.replicate_succ]
          rfl
      · obtain ⟨hfs, hat⟩ := ih.1 hs
        have hrpos : 0 < r := by
          rcases r with _ | m
          · simp [download_image_go] at hs
          · exact Nat.succ_pos m
        refine ⟨fun _ => ⟨hfs, by omega⟩, by simp [hs], by have := ih.2.2.1; omega, ?_⟩
        simp only [if_pos hrpos, gt_iff_lt, hrpos, ih.2.2.2]
        have h1 : (download_image_go ok fs fname (a + 1) r).1.attempts + 1 - 1
            = ((download_image_go ok fs fname (a + 1) r).1.attempts - 1) + 1 := by omega
        rw [h1, List.replicate_succ]
        rfl

theorem download_image_spec (ok : Nat → Bool) (fs : List String) (fname : String) :
    ((download_image ok fs fname).1.success = true →
      (download_image ok fs fname).2 = fname :: fs)
    ∧ ((download_image ok fs fname).1.success = false →
      (download_image ok fs fname).2 = fs
        ∧ (download_image ok fs fname).1.attempts = MAX_RETRIES)
    ∧ (download_image ok fs fname).1.attempts ≤ MAX_RETRIES
    ∧ (download_image ok fs fname).1.delays
        = List.replicate ((download_image ok fs fname).1.attempts - 1) RETRY_DELAY := by
  have h := download_image_go_spec ok fs fname MAX_RETRIES 1
  exact ⟨fun hs => (h.1 hs).1, h.2.1, h.2.2.1, h.2.2.2⟩

theorem download_image_all_fail_go (ok : Nat → Bool) (fs : List String)
    (fname : String) (hok : ∀ a, ok a = false) :
    ∀ (r a : Nat),
      download_image_go ok fs fname a r
        = (⟨false, r, List.replicate (r - 1) RETRY_DELAY⟩, fs)
  | 0, a => by simp [download_image_go]
  | r + 1, a => by
    rw [download_image_go, if_neg (by simp [hok a]),
      download_image_all_fail_go ok fs fname hok r (a + 1)]
    rcases r with _ | m
    · rfl
    · simp only [gt_iff_lt, Nat.succ_pos, if_pos]
      have h1 : m + 1 + 1 - 1 = (m + 1 - 1) + 1 := by omega
      rw [h1, List.replicate_succ]
      rfl

/-! ### Claims C3, C7, C9 -/

/-- C3, counterexample: the extractor truncates to 9 raw entries before
filtering, so a malformed entry among the first nine does count toward
the 9-item limit.  On ten raw entries whose first is malformed the code
yields 8 posts, while the first up-to-9 valid entries are 9. -/
theorem claim_C3_counterexample :
    get_posts_from_profile edgesTen ≠ spec_first_valid_profile edgesTen
    ∧ (get_posts_from_profile edgesTen).length = 8
    ∧ (spec_first_valid_profile edgesTen).length = 9 := by decide

/-- C3, amended: in both extraction strategies an entry is accepted
exactly when its identifier and media source URL are non-empty, but the
output is the list of valid entries among the *first 9 raw entries* of
the input, in input order: malformed entries are silently dropped yet do
occupy slots of the 9-item window. -/
theorem claim_C3_amended :
    (∀ edges : List Node,
      get_posts_from_profile edges
        = ((edges.take MAX_POSTS).filter validNode).map nodeToPost)
    ∧ (∀ items : List ApiItem,
      parse_feed_items items
        = ((items.take MAX_POSTS).filter validItem).map itemToPost) :=
  ⟨fun edges => filterMap_if validNode nodeToPost (edges.take MAX_POSTS),
   fun items => filterMap_if validItem itemToPost (items.take MAX_POSTS)⟩

/-- C9: `download_image` writes the cache file only after
`raise_for_status` has passed on a successful GET; when it returns
`False` (non-2xx or transport error on every attempt) the directory is
unchanged — no empty or partial file is created at the target path. -/
theorem claim_C9 :
    ∀ (ok : Nat → Bool) (fs : List String) (fname : String),
      ((download_image ok fs fname).1.success = false →
        (download_image ok fs fname).2 = fs)
      ∧ ((download_image ok fs fname).1.success = true →
        (download_image ok fs fname).2 = fname :: fs) := by
  intro ok fs fname
  have h := download_image_spec ok fs fname
  exact ⟨fun hs => (h.2.1 hs).1, h.1⟩

/-- Witness for C9 at concrete oracles: a download that fails every
attempt leaves the empty directory empty; a download that succeeds
creates exactly the target file. -/
theorem claim_C9_witness :
    (download_image (fun _ => false) [] "f.jpg").2 = []
    ∧ (download_image (fun _ => true) [] "f.jpg").2 = ["f.jpg"] :=
  ⟨(claim_C9 (fun _ => false) [] "f.jpg").1 (by decide),
   (claim_C9 (fun _ => true) [] "f.jpg").2 (by decide)⟩

/-- C7, counterexample: the fixed delay between download attempts is
`RETRY_DELAY = 5` time units, not 10; a download whose three attempts
all fail sleeps `[5, 5]`, not `[10, 10]`. -/
theorem claim_C7_counterexample :
    RETRY_DELAY = 5 ∧ RETRY_DELAY ≠ 10
    ∧ (download_image (fun _ => false) [] "img.jpg").1.delays = [5, 5]
    ∧ (download_image (fun _ => false) [] "img.jpg").1.delays ≠ [10, 10] := by
  decide

/-- C7, amended: for a record whose media is not cached, `download_image`
issues up to 3 total GET attempts with a fixed delay of `RETRY_DELAY = 5`
time units between consecutive attempts; when all 3 attempts fail the
record is skipped (nothing is appended for it) and the loop simply
continues with the remaining records. -/
theorem claim_C7_amended :
    RETRY_DELAY = 5
    ∧ (∀ (ok : Nat → Bool) (fs : List String) (fname : String),
        (download_image ok fs fname).1.attempts ≤ MAX_RETRIES
        ∧ (download_image ok fs fname).1.delays
            = List.replicate ((download_image ok fs fname).1.attempts - 1)
                RETRY_DELAY)
    ∧ (∀ (ok : Nat → Bool) (fs : List String) (fname : String),
        (∀ a, ok a = false) →
        download_image ok fs fname
          = (⟨false, MAX_RETRIES, [RETRY_DELAY, RETRY_DELAY]⟩, fs))
    ∧ (∀ (net : Network) (p : Post) (rest : List Post) (st : LoopState),
        postFile p ∉ st.fs →
        (∀ a, net.dlOk p.display_url a = false) →
        process_posts net (p :: rest) st
          = process_posts net rest
              { st with dlAttempts := st.dlAttempts + MAX_RETRIES }) := by
  refine ⟨rfl, ?_, ?_, ?_⟩
  · intro ok fs fname
    have h := download_image_spec ok fs fname
    exact ⟨h.2.2.1, h.2.2.2⟩
  · intro ok fs fname hok
    show download_image_go ok fs fname 1 MAX_RETRIES = _
    rw [download_image_all_fail_go ok fs fname hok MAX_RETRIES 1]
    rfl
  · intro net p rest st hnot hok
    have hdl : download_image (net.dlOk p.display_url) st.fs (postFile p)
        = (⟨false, MAX_RETRIES, [RETRY_DELAY, RETRY_DELAY]⟩, st.fs) := by
      show download_image_go _ _ _ 1 MAX_RETRIES = _
      rw [download_image_all_fail_go _ _ _ hok MAX_RETRIES 1]
      rfl
    rw [process_posts, if_neg hnot, hdl]
    rfl

/-- Witness for C7's amended theorem at concrete inputs: an always
failing oracle makes `download_image` return failure after 3 attempts
with sleeps `[5, 5]` and an unchanged directory, and the processing loop
skips such a post, continuing with the rest. -/
theorem claim_C7_witness :
    download_image (fun _ => false) [] "img.jpg"
      = (⟨false, MAX_RETRIES, [RETRY_DELAY, RETRY_DELAY]⟩, [])
    ∧ process_posts netC10 [⟨"X", "b", mkPermalink "X"⟩] (initLoop [])
        = process_posts netC10 []
            { initLoop [] with dlAttempts := 0 + MAX_RETRIES } :=
  ⟨claim_C7_amended.2.2.1 (fun _ => false) [] "img.jpg" (fun _ => rfl),
   claim_C7_amended.2.2.2 netC10 ⟨"X", "b", mkPermalink "X"⟩ [] (initLoop [])
     (by decide) (fun _ => rfl)⟩

/-! ### Processing-loop lemmas -/

theorem process_posts_cons_cached (net : Network) (p : Post) (rest : List Post)
    (st : LoopState) (hc : postFile p ∈ st.fs) :
    process_posts net (p :: rest) st
      = process_posts net rest
          { st with posts_data := st.posts_data ++ [postEntry p],
                    shortcodes := st.shortcodes ++ [p.shortcode] } := by
  rw [process_posts, if_pos hc]

theorem process_posts_cons_dl_success (net : Network) (p : Post)
    (rest : List Post) (st : LoopState) (hc : postFile p ∉ st.fs)
    (hs : (download_image (net.dlOk p.display_url) st.fs (postFile p)).1.success
      = true) :
    process_posts net (p :: rest) st
      = process_posts net rest
          { fs := postFile p :: st.fs,
            posts_data := st.posts_data ++ [postEntry p],
            shortcodes := st.shortcodes ++ [p.shortcode],
            dlAttempts := st.dlAttempts
              + (download_image (net.dlOk p.display_url) st.fs
                  (postFile p)).1.attempts,
            dlSuccess := st.dlSuccess ++ [p.shortcode] } := by
  have hfs := (download_image_spec (net.dlOk p.display_url) st.fs (postFile p)).1 hs
  rw [process_posts, if_neg hc, if_pos hs, hfs]

theorem process_posts_cons_dl_fail (net : Network) (p : Post)
    (rest : List Post) (st : LoopState) (hc : postFile p ∉ st.fs)
    (hs : (download_image (net.dlOk p.display_url) st.fs (postFile p)).1.success
      = false) :
    process_posts net (p :: rest) st
      = process_posts net rest
          { st with dlAttempts := st.dlAttempts
              + (download_image (net.dlOk p.display_url) st.fs
                  (postFile p)).1.attempts } := by
  have hfs := ((download_image_spec (net.dlOk p.display_url) st.fs
    (postFile p)).2.1 hs).1
  rw [process_posts, if_neg hc, if_neg (by simp [hs]), hfs]

theorem process_posts_spec (net : Network) (ps : List Post) (st : LoopState) :
    ∃ t : List Post, t.Sublist ps
      ∧ (process_posts net ps st).posts_data = st.posts_data ++ t.map postEntry
      ∧ (process_posts net ps st).shortcodes
          = st.shortcodes ++ t.map Post.shortcode
      ∧ (∀ f, f ∈ st.fs → f ∈ (process_posts net ps st).fs)
      ∧ (∀ f, f ∈ (process_posts net ps st).fs →
          f ∈ st.fs ∨ ∃ p, p ∈ ps ∧ f = postFile p)
      ∧ (∀ p, p ∈ t → postFile p ∈ (process_posts net ps st).fs) := by
  induction ps generalizing st with
  | nil =>
    exact ⟨[], List.Sublist.refl [], by simp [process_posts],
      by simp [process_posts], fun f hf => hf, fun f hf => Or.inl hf,
      by simp⟩
  | cons p rest ih =>
    by_cases hc : postFile p ∈ st.fs
    · rw [process_posts_cons_cached net p rest st hc]
      obtain ⟨t, hsub, hpd, hsc, hgrow, hchar, hfil⟩ :=
        ih { st with posts_data := st.posts_data ++ [postEntry p],
                     shortcodes := st.shortcodes ++ [p.shortcode] }
      refine ⟨p :: t, hsub.cons₂ p, ?_, ?_, ?_, ?_, ?_⟩
      · simp only [hpd]; simp [List.append_assoc]
      · simp only [hsc]; simp [List.append_assoc]
      · exact fun f hf => hgrow f hf
      · intro f hf
        rcases hchar f hf with h | ⟨q, hq, hfq⟩
        · exact Or.inl h
        · exact Or.inr ⟨q, List.mem_cons_of_mem p hq, hfq⟩
      · intro q hq
        rcases List.mem_cons.mp hq with rfl | hq
        · exact hgrow _ hc
        · exact hfil q hq
    · rcases hdl : (download_image (net.dlOk p.display_url) st.fs
          (postFile p)).1.success with _ | _
      · rw [process_posts_cons_dl_fail net p rest st hc hdl]
        obtain ⟨t, hsub, hpd, hsc, hgrow, hchar, hfil⟩ :=
          ih { st with dlAttempts := st.dlAttempts
            + (download_image (net.dlOk p.display_url) st.fs
                (postFile p)).1.attempts }
        refine ⟨t, hsub.cons p, hpd, hsc, fun f hf => hgrow f hf, ?_, hfil⟩
        intro f hf
        rcases hchar f hf with h | ⟨q, hq, hfq⟩
        · exact Or.inl h
        · exact Or.inr ⟨q, List.mem_cons_of_mem p hq, hfq⟩
      · rw [process_posts_cons_dl_success net p rest st hc hdl]
        obtain ⟨t, hsub, hpd, hsc, hgrow, hchar, hfil⟩ :=
          ih { fs := postFile p :: st.fs,
               posts_data := st.posts_data ++ [postEntry p],
               shortcodes := st.shortcodes ++ [p.shortcode],
               dlAttempts := st.dlAttempts
                 + (download_image (net.dlOk p.display_url) st.fs
                     (postFile p)).1.attempts,
               dlSuccess := st.dlSuccess ++ [p.shortcode] }
        refine ⟨p :: t, hsub.cons₂ p, ?_, ?_, ?_, ?_, ?_⟩
        · simp only [hpd]; simp [List.append_assoc]
        · simp only [hsc]; simp [List.append_assoc]
        · exact fun f hf => hgrow f (List.mem_cons_of_mem _ hf)
        · intro f hf
          rcases hchar f hf with h | ⟨q, hq, hfq⟩
          · rcases List.mem_cons.mp h with rfl | h
            · exact Or.inr ⟨p, List.mem_cons_self p rest, rfl⟩
            · exact Or.inl h
          · exact Or.inr ⟨q, List.mem_cons_of_mem p hq, hfq⟩
        · intro q hq
          rcases List.mem_cons.mp hq with rfl | hq
          · exact hgrow _ (List.mem_cons_self _ _)
          · exact hfil q hq

theorem process_posts_fs_stable (net : Network) (ps : List Post) :
    ∀ st : LoopState,
      (process_posts net ps st).posts_data = st.posts_data →
      (process_posts net ps st).fs = st.fs := by
  induction ps with
  | nil => intro st _; rfl
  | cons p rest ih =>
    intro st h
    by_cases hc : postFile p ∈ st.fs
    · exfalso
      rw [process_posts_cons_cached net p rest st hc] at h
      obtain ⟨t, _, hpd, _⟩ := process_posts_spec net rest
        { st with posts_data := st.posts_data ++ [postEntry p],
                  shortcodes := st.shortcodes ++ [p.shortcode] }
      rw [hpd] at h
      have := congrArg List.length h
      simp at this
    · rcases hdl : (download_image (net.dlOk p.display_url) st.fs
          (postFile p)).1.success with _ | _
      · rw [process_posts_cons_dl_fail net p rest st hc hdl] at h ⊢
        exact ih _ h
      · exfalso
        rw [process_posts_cons_dl_success net p rest st hc hdl] at h
        obtain ⟨t, _, hpd, _⟩ := process_posts_spec net rest
          { fs := postFile p :: st.fs,
            posts_data := st.posts_data ++ [postEntry p],
            shortcodes := st.shortcodes ++ [p.shortcode],
            dlAttempts := st.dlAttempts
              + (download_image (net.dlOk p.display_url) st.fs
                  (postFile p)).1.attempts,
            dlSuccess := st.dlSuccess ++ [p.shortcode] }
        rw [hpd] at h
        have := congrArg List.length h
        simp at this

theorem process_posts_all_cached (net : Network) (ps : List Post) :
    ∀ st : LoopState, (∀ p ∈ ps, postFile p ∈ st.fs) →
      process_posts net ps st
        = ⟨st.fs, st.posts_data ++ ps.map postEntry,
           st.shortcodes ++ ps.map Post.shortcode,
           st.dlAttempts, st.dlSuccess⟩ := by
  induction ps with
  | nil => intro st _; simp [process_posts]
  | cons p rest ih =>
    intro st h
    rw [process_posts_cons_cached net p rest st (h p (List.mem_cons_self p rest))]
    rw [ih { st with posts_data := st.posts_data ++ [postEntry p],
                     shortcodes := st.shortcodes ++ [p.shortcode] }
        (fun q hq => h q (List.mem_cons_of_mem p hq))]
    simp [List.append_assoc]

theorem process_posts_dlSuccess_nodup (net : Network) (ps : List Post) :
    ∀ st : LoopState, st.dlSuccess.Nodup →
      (∀ sc ∈ st.dlSuccess, (sc ++ ".jpg") ∈ st.fs) →
      ((process_posts net ps st).dlSuccess).Nodup := by
  induction ps with
  | nil => intro st h _; exact h
  | cons p rest ih =>
    intro st hnd hinv
    by_cases hc : postFile p ∈ st.fs
    · rw [process_posts_cons_cached net p rest st hc]
      exact ih _ hnd hinv
    · rcases hdl : (download_image (net.dlOk p.display_url) st.fs
          (postFile p)).1.success with _ | _
      · rw [process_posts_cons_dl_fail net p rest st hc hdl]
        exact ih _ hnd hinv
      · rw [process_posts_cons_dl_success net p rest st hc hdl]
        refine ih _ ?_ ?_
        · have hnp : p.shortcode ∉ st.dlSuccess := fun hmem => hc (hinv _ hmem)
          simp [List.nodup_append, hnd, hnp]
        · intro sc hsc
          rcases List.mem_append.mp hsc with h | h
          · exact List.mem_cons_of_mem _ (hinv sc h)
          · simp at h
            subst h
            exact List.mem_cons_self _ _

/-! ### Cleanup and file-name lemmas -/

theorem cleanup_ok_eq (rOk : String → Bool) (cur : List String) :
    ∀ (fs kept : List String),
      cleanup_old_images rOk cur fs = Except.ok kept →
      kept = fs.filter (fun f => !staleJpg cur f) := by
  intro fs
  induction fs with
  | nil =>
    intro kept h
    simp [cleanup_old_images] at h
    subst h
    rfl
  | cons f rest ih =>
    intro kept h
    rw [cleanup_old_images] at h
    by_cases hst : staleJpg cur f = true
    · rw [if_pos hst] at h
      by_cases hr : rOk f = true
      · rw [if_pos hr] at h
        rw [List.filter_cons, if_neg (by simp [hst])]
        exact ih kept h
      · rw [if_neg hr] at h
        exact absurd h (by simp)
    · rw [if_neg hst] at h
      rcases hrec : cleanup_old_images rOk cur rest with crash | kept2
      · rw [hrec] at h; exact absurd h (by simp)
      · rw [hrec] at h
        simp only [Except.ok.injEq] at h
        rw [List.filter_cons, if_pos (by simp at hst ⊢; exact hst), ← h]
        rw [ih kept2 hrec]

theorem cleanup_no_stale (rOk : String → Bool) (cur : List String) :
    ∀ fs : List String, (∀ f ∈ fs, staleJpg cur f = false) →
      cleanup_old_images rOk cur fs = Except.ok fs := by
  intro fs
  induction fs with
  | nil => intro _; rfl
  | cons f rest ih =>
    intro h
    rw [cleanup_old_images,
      if_neg (by simp [h f (List.mem_cons_self f rest)]),
      ih (fun g hg => h g (List.mem_cons_of_mem f hg))]

theorem endsWithJpg_concat (sc : String) : endsWithJpg (sc ++ ".jpg") = true := by
  unfold endsWithJpg
  rw [String.data_append]
  simp [List.isSuffixOf]

theorem jpg_concat_inj {a b : String} (h : a ++ ".jpg" = b ++ ".jpg") :
    a = b := by
  have hd := congrArg String.data h
  rw [String.data_append, String.data_append] at hd
  exact String.ext (List.append_cancel_right hd)

theorem mem_current_file_names {sc : String} {l : List String} :
    (sc ++ ".jpg") ∈ current_file_names l ↔ sc ∈ l := by
  unfold current_file_names
  constructor
  · intro h
    obtain ⟨x, hx, hxe⟩ := List.mem_map.mp h
    rwa [← jpg_concat_inj hxe]
  · intro h
    exact List.mem_map.mpr ⟨sc, h, rfl⟩

theorem filter_mem_of_sublist {α : Type} [DecidableEq α] :
    ∀ {s l : List α}, s.Sublist l → l.Nodup →
      l.filter (fun x => decide (x ∈ s)) = s := by
  intro s l hsub
  induction hsub with
  | slnil => intro _; rfl
  | @cons s' l' a hsub ih =>
    intro hnd
    have hal : a ∉ l' := by simp [List.nodup_cons] at hnd; exact hnd.1
    have has : a ∉ s' := fun h => hal (hsub.subset h)
    rw [List.filter_cons, if_neg (by simp [has])]
    exact ih (List.Nodup.of_cons hnd)
  | @cons₂ s' l' a hsub ih =>
    intro hnd
    have hal : a ∉ l' := by simp [List.nodup_cons] at hnd; exact hnd.1
    rw [List.filter_cons, if_pos (by simp)]
    have hcongr : l'.filter (fun x => decide (x ∈ a :: s'))
        = l'.filter (fun x => decide (x ∈ s')) := by
      apply List.filter_congr
      intro x hx
      have hxa : x ≠ a := fun he => hal (he ▸ hx)
      simp [List.mem_cons, hxa]
    rw [hcongr, ih (List.Nodup.of_cons hnd)]

/-! ### Case analysis of a run -/

theorem sync_cases (net : Network) (sid : String) (st0 : RunState) :
    (sync_instagram net sid st0 = ⟨1, false, st0, [], [], 0⟩
      ∧ (stripStr sid = "" ∨ resolve_posts net = none
         ∨ ∃ posts, resolve_posts net = some posts ∧ posts.isEmpty = true))
    ∨ (∃ posts, resolve_posts net = some posts ∧ posts.isEmpty = false
        ∧ stripStr sid ≠ ""
        ∧ sync_instagram net sid st0
            = syncFinish net st0 (posts.take MAX_POSTS)
                (process_posts net (posts.take MAX_POSTS) (initLoop st0.fs))) := by
  unfold sync_instagram
  by_cases hs : stripStr sid = ""
  · rw [if_pos hs]
    exact Or.inl ⟨rfl, Or.inl hs⟩
  · rw [if_neg hs]
    rcases hr : resolve_posts net with _ | posts
    · exact Or.inl ⟨rfl, Or.inr (Or.inl rfl)⟩
    · by_cases he : posts.isEmpty = true
      · refine Or.inl ⟨?_, Or.inr (Or.inr ⟨posts, rfl, he⟩)⟩
        show (if posts.isEmpty = true then (⟨1, false, st0, [], [], 0⟩ : SyncOut)
          else syncSelected net st0 (posts.take MAX_POSTS)) = _
        rw [if_pos he]
      · refine Or.inr ⟨posts, rfl, by simpa using he, hs, ?_⟩
        show (if posts.isEmpty = true then (⟨1, false, st0, [], [], 0⟩ : SyncOut)
          else syncSelected net st0 (posts.take MAX_POSTS)) = _
        rw [if_neg he]
        rfl

theorem syncFinish_cases (net : Network) (st0 : RunState) (sel : List Post)
    (ls : LoopState) :
    (ls.posts_data.isEmpty = true
      ∧ syncFinish net st0 sel ls
          = ⟨1, false, ⟨ls.fs, st0.manifest⟩, sel, ls.shortcodes, ls.dlAttempts⟩)
    ∨ (∃ crash, ls.posts_data.isEmpty = false
      ∧ cleanup_old_images net.removeOk (current_file_names ls.shortcodes) ls.fs
          = Except.error crash
      ∧ syncFinish net st0 sel ls
          = ⟨1, true, ⟨crash, st0.manifest⟩, sel, ls.shortcodes, ls.dlAttempts⟩)
    ∨ (∃ fs2, ls.posts_data.isEmpty = false
      ∧ cleanup_old_images net.removeOk (current_file_names ls.shortcodes) ls.fs
          = Except.ok fs2
      ∧ syncFinish net st0 sel ls
          = ⟨0, false, ⟨fs2, some ls.posts_data⟩, sel, ls.shortcodes,
             ls.dlAttempts⟩) := by
  unfold syncFinish
  by_cases he : ls.posts_data.isEmpty = true
  · rw [if_pos he]
    exact Or.inl ⟨he, rfl⟩
  · rw [if_neg he]
    rcases hcl : cleanup_old_images net.removeOk
        (current_file_names ls.shortcodes) ls.fs with crash | fs2
    · exact Or.inr (Or.inl ⟨crash, by simpa using he, rfl, rfl⟩)
    · exact Or.inr (Or.inr ⟨fs2, by simpa using he, rfl, rfl⟩)

/-! ### Claims C1, C2, C4 -/

/-- C1: on every fatal `sys.exit` path — profile resolution failed,
zero valid posts extracted, or zero posts successfully processed — the
run exits with status 1 and the persisted state (cache directory
contents and manifest file) is exactly what it was before the run; the
manifest is written and stale images are deleted only after all those
checks have passed.  (`crashed = false` restricts the first conjunct to
the deliberate `sys.exit` aborts, which are the paths the claim
enumerates.) -/
theorem claim_C1 :
    ∀ (net : Network) (sid : String) (st0 : RunState),
      ((sync_instagram net sid st0).crashed = false →
        (sync_instagram net sid st0).exitCode ≠ 0 →
        (sync_instagram net sid st0).state = st0)
      ∧ (resolve_posts net = none → (sync_instagram net sid st0).exitCode = 1)
      ∧ (∀ posts, resolve_posts net = some posts → posts.isEmpty = true →
          (sync_instagram net sid st0).exitCode = 1)
      ∧ (∀ posts, resolve_posts net = some posts →
          ((process_posts net (posts.take MAX_POSTS)
              (initLoop st0.fs)).posts_data).isEmpty = true →
          (sync_instagram net sid st0).exitCode = 1) := by
  intro net sid st0
  rcases sync_cases net sid st0 with ⟨heq, _⟩ | ⟨posts, hr, hne, hs, heq⟩
  · rw [heq]
    exact ⟨fun _ _ => rfl, fun _ => rfl, fun _ _ _ => rfl, fun _ _ _ => rfl⟩
  · rcases syncFinish_cases net st0 (posts.take MAX_POSTS)
        (process_posts net (posts.take MAX_POSTS) (initLoop st0.fs)) with
      ⟨hemp, heq2⟩ | ⟨crash, hne2, hcl, heq2⟩ | ⟨fs2, hne2, hcl, heq2⟩
    · rw [heq, heq2]
      refine ⟨fun _ _ => ?_, fun hnone => ?_, fun ps hps hpe => rfl,
        fun ps hps hpd => rfl⟩
      · have hfs : (process_posts net (posts.take MAX_POSTS)
            (initLoop st0.fs)).fs = st0.fs := by
          apply process_posts_fs_stable
          simpa [initLoop, List.isEmpty_iff] using hemp
        show RunState.mk _ st0.manifest = st0
        rw [hfs]
      · rw [hnone] at hr
    · rw [heq, heq2]
      refine ⟨fun hcr _ => ?_, fun hnone => ?_, fun ps hps hpe => rfl,
        fun ps hps hpd => ?_⟩
      · exact absurd hcr (by simp)
      · rw [hnone] at hr
      · rfl
    · rw [heq, heq2]
      refine ⟨fun _ h0 => absurd rfl h0, fun hnone => ?_,
        fun ps hps hpe => ?_, fun ps hps hpd => ?_⟩
      · rw [hnone] at hr
        exact absurd hr (by simp)
      · rw [hps] at hr
        obtain rfl : ps = posts := by injection hr
        rw [hpe] at hne
        exact absurd hne (by simp)
      · rw [hps] at hr
        obtain rfl : ps = posts := by injection hr
        rw [hpd] at hne2
        exact absurd hne2 (by simp)

/-- Witness for C1 at a concrete fatal run: against an environment whose
profile request always fails, a run from a non-trivial starting state
exits 1 and leaves the state untouched. -/
theorem claim_C1_witness :
    (sync_instagram netFail "sid" stOld).state = stOld
    ∧ (sync_instagram netFail "sid" stOld).exitCode = 1 := by
  have h := claim_C1 netFail "sid" stOld
  exact ⟨h.1 (by decide) (by decide), h.2.1 (by decide)⟩

/-- C2, counterexample: an absent or blank `INSTAGRAM_SESSION_ID` is by
itself fatal — with an otherwise fully functional environment the run
exits 1 when the variable is empty or whitespace, and exits 0 when it is
set.  The claim that absence merely degrades to anonymous mode is false
for this script. -/
theorem claim_C2_counterexample :
    (sync_instagram netY "" stEmpty).exitCode = 1
    ∧ (sync_instagram netY " " stEmpty).exitCode = 1
    ∧ (sync_instagram netY "sid" stEmpty).exitCode = 0 := by decide

/-- C2, amended: when the stripped `INSTAGRAM_SESSION_ID` is empty,
`sync_instagram` logs an error and exits immediately with status 1,
touching nothing; `create_session` itself would tolerate an empty id
(warning, no cookie set) but `sync_instagram` never reaches it in that
case. -/
theorem claim_C2_amended :
    ∀ (net : Network) (st0 : RunState) (sid : String), stripStr sid = "" →
      (sync_instagram net sid st0).exitCode = 1
      ∧ (sync_instagram net sid st0).state = st0
      ∧ (sync_instagram net sid st0).crashed = false
      ∧ create_session "" = ⟨false, true⟩
      ∧ create_session "x" = ⟨true, false⟩ := by
  intro net st0 sid h
  unfold sync_instagram
  rw [if_pos h]
  exact ⟨rfl, rfl, rfl, by decide, by decide⟩

/-- Witness for C2's amended theorem: the empty session id aborts the
run with exit 1 and an unchanged state even though the rest of the
environment works. -/
theorem claim_C2_witness :
    (sync_instagram netY "" stEmpty).exitCode = 1
    ∧ (sync_instagram netY "" stEmpty).state = stEmpty := by
  have h := claim_C2_amended netY stEmpty "" (by decide)
  exact ⟨h.1, h.2.1⟩

/-- C4, counterexample: a failure of `os.remove` during cleanup is not a
logged, skipped, per-item error: it is an unhandled exception.  In a run
that processed one post and then failed to delete the stale `old.jpg`,
the process crashes with a non-zero exit and the manifest is never
written. -/
theorem claim_C4_counterexample :
    (sync_instagram netC4 "sid" stOld).crashed = true
    ∧ (sync_instagram netC4 "sid" stOld).exitCode = 1
    ∧ (sync_instagram netC4 "sid" stOld).state.manifest = none := by decide

/-- C4, amended: a failed deletion of a cached file raises out of
`cleanup_old_images` as an unhandled exception: the run aborts with a
non-zero exit *before* the manifest is written, so the manifest file
keeps its pre-run content; deletions are fatal, not recoverable. -/
theorem claim_C4_amended :
    ∀ (net : Network) (sid : String) (st0 : RunState),
      (sync_instagram net sid st0).crashed = true →
      (sync_instagram net sid st0).exitCode = 1
      ∧ (sync_instagram net sid st0).state.manifest = st0.manifest := by
  intro net sid st0 h
  rcases sync_cases net sid st0 with ⟨heq, _⟩ | ⟨posts, hr, hne, hs, heq⟩
  · rw [heq] at h
    exact absurd h (by simp)
  · rcases syncFinish_cases net st0 (posts.take MAX_POSTS)
        (process_posts net (posts.take MAX_POSTS) (initLoop st0.fs)) with
      ⟨hemp, heq2⟩ | ⟨crash, hne2, hcl, heq2⟩ | ⟨fs2, hne2, hcl, heq2⟩
    · rw [heq, heq2] at h
      exact absurd h (by simp)
    · rw [heq, heq2]
      exact ⟨rfl, rfl⟩
    · rw [heq, heq2] at h
      exact absurd h (by simp)

/-- Witness for C4's amended theorem at the concrete crashing run. -/
theorem claim_C4_witness :
    (sync_instagram netC4 "sid" stOld).exitCode = 1
    ∧ (sync_instagram netC4 "sid" stOld).state.manifest = stOld.manifest :=
  claim_C4_amended netC4 "sid" stOld (by decide)

/-! ### Dissection of a successful run -/

theorem initLoop_posts_data (fs : List String) : (initLoop fs).posts_data = [] :=
  rfl

theorem initLoop_shortcodes (fs : List String) : (initLoop fs).shortcodes = [] :=
  rfl

theorem sync_success_dissect (net : Network) (sid : String) (st0 : RunState)
    (h0 : (sync_instagram net sid st0).exitCode = 0) :
    ∃ (posts : List Post) (t : List Post) (fs2 : List String),
      resolve_posts net = some posts
      ∧ stripStr sid ≠ ""
      ∧ posts.isEmpty = false
      ∧ t.Sublist (posts.take MAX_POSTS)
      ∧ (process_posts net (posts.take MAX_POSTS) (initLoop st0.fs)).posts_data
          = t.map postEntry
      ∧ (process_posts net (posts.take MAX_POSTS) (initLoop st0.fs)).shortcodes
          = t.map Post.shortcode
      ∧ t ≠ []
      ∧ cleanup_old_images net.removeOk
          (current_file_names (t.map Post.shortcode))
          (process_posts net (posts.take MAX_POSTS) (initLoop st0.fs)).fs
          = Except.ok fs2
      ∧ (∀ p ∈ t, postFile p
          ∈ (process_posts net (posts.take MAX_POSTS) (initLoop st0.fs)).fs)
      ∧ (∀ f, f ∈ st0.fs →
          f ∈ (process_posts net (posts.take MAX_POSTS) (initLoop st0.fs)).fs)
      ∧ (∀ f, f ∈ (process_posts net (posts.take MAX_POSTS) (initLoop st0.fs)).fs →
          f ∈ st0.fs ∨ ∃ p, p ∈ posts.take MAX_POSTS ∧ f = postFile p)
      ∧ sync_instagram net sid st0
          = ⟨0, false, ⟨fs2, some (t.map postEntry)⟩, posts.take MAX_POSTS,
             t.map Post.shortcode,
             (process_posts net (posts.take MAX_POSTS)
               (initLoop st0.fs)).dlAttempts⟩ := by
  rcases sync_cases net sid st0 with ⟨heq, _⟩ | ⟨posts, hr, hne, hs, heq⟩
  · rw [heq] at h0
    exact absurd h0 (by simp)
  · obtain ⟨t, hsub, hpd, hsc, hgrow, hchar, hfil⟩ :=
      process_posts_spec net (posts.take MAX_POSTS) (initLoop st0.fs)
    simp only [initLoop_posts_data, initLoop_shortcodes, List.nil_append]
      at hpd hsc
    rcases syncFinish_cases net st0 (posts.take MAX_POSTS)
        (process_posts net (posts.take MAX_POSTS) (initLoop st0.fs)) with
      ⟨hemp, heq2⟩ | ⟨crash, hne2, hcl, heq2⟩ | ⟨fs2, hne2, hcl, heq2⟩
    · rw [heq, heq2] at h0
      exact absurd h0 (by simp)
    · rw [heq, heq2] at h0
      exact absurd h0 (by simp)
    · have htne : t ≠ [] := by
        intro ht
        rw [hpd, ht] at hne2
        simp at hne2
      rw [hsc] at hcl
      refine ⟨posts, t, fs2, hr, hs, hne, hsub, hpd, hsc, htne, hcl,
        hfil, hgrow, hchar, ?_⟩
      rw [heq, heq2, hpd, hsc]

/-! ### Claim C5 -/

/-- C5, counterexample: when the same shortcode appears twice among the
selected posts with two different media URLs and only the second
downloads, the run succeeds with a 1-entry manifest while *two* selected
PostRecords have a cache file after the run — the manifest's length does
not equal the number of selected records whose cache file exists. -/
theorem claim_C5_counterexample :
    (sync_instagram netDup "sid" stEmpty).exitCode = 0
    ∧ (sync_instagram netDup "sid" stEmpty).state.manifest
        = some [⟨"https://www.instagram.com/p/X/", "./data/ig_images/X.jpg"⟩]
    ∧ ((sync_instagram netDup "sid" stEmpty).selected.filter
        (fun p => decide (postFile p
          ∈ (sync_instagram netDup "sid" stEmpty).state.fs))).length = 2 := by
  decide

/-- C5, amended: on every successful run the manifest is an ordered
sub-sequence of the selected posts' entries — one entry per successfully
processed PostRecord, in selection order — it is non-empty, its length
is at most 9 and equals the number of entries of the `shortcodes` list;
and *when the selected identifiers are pairwise distinct* its length
also equals the number of selected PostRecords whose cache file exists
after the run.  (Without distinctness the counterexample shows the last
equality can fail.) -/
theorem claim_C5_amended :
    ∀ (net : Network) (sid : String) (st0 : RunState) (pd : List MEntry),
      (sync_instagram net sid st0).exitCode = 0 →
      (sync_instagram net sid st0).state.manifest = some pd →
      pd ≠ []
      ∧ pd.length ≤ MAX_POSTS
      ∧ pd.Sublist ((sync_instagram net sid st0).selected.map postEntry)
      ∧ pd.length = (sync_instagram net sid st0).shortcodes.length
      ∧ (((sync_instagram net sid st0).selected.map Post.shortcode).Nodup →
          pd.length = ((sync_instagram net sid st0).selected.filter
            (fun p => decide (postFile p
              ∈ (sync_instagram net sid st0).state.fs))).length) := by
  intro net sid st0 pd h0 hm
  obtain ⟨posts, t, fs2, hr, hs, hne, hsub, hpd, hsc, htne, hcl, hfil,
    hgrow, hchar, heq⟩ := sync_success_dissect net sid st0 h0
  rw [heq] at hm ⊢
  obtain rfl : t.map postEntry = pd := by
    simpa using hm
  refine ⟨by simpa [List.map_eq_nil_iff] using htne, ?_, ?_, ?_, ?_⟩
  · rw [List.length_map]
    calc t.length ≤ (posts.take MAX_POSTS).length := hsub.length_le
    _ ≤ MAX_POSTS := by rw [List.length_take]; exact min_le_left _ _
  · exact hsub.map postEntry
  · simp
  · intro hnd
    have hfs2 := cleanup_ok_eq net.removeOk
      (current_file_names (t.map Post.shortcode)) _ _ hcl
    have key : ∀ p ∈ posts.take MAX_POSTS,
        (postFile p ∈ fs2 ↔ p.shortcode ∈ t.map Post.shortcode) := by
      intro p hp
      constructor
      · intro hmem
        rw [hfs2] at hmem
        obtain ⟨hls, hkeep⟩ := List.mem_filter.mp hmem
        have hstale : staleJpg (current_file_names (t.map Post.shortcode))
            (postFile p) = false := by
          simpa using hkeep
        have hjpg : endsWithJpg (postFile p) = true := endsWithJpg_concat _
        have hcontains : (current_file_names
            (t.map Post.shortcode)).contains (postFile p) = true := by
          rcases hcon : (current_file_names
              (t.map Post.shortcode)).contains (postFile p) with _ | _
          · rw [staleJpg, hjpg, hcon] at hstale
            simp at hstale
          · rfl
        have : postFile p ∈ current_file_names (t.map Post.shortcode) :=
          List.elem_iff.mp hcontains
        exact mem_current_file_names.mp this
      · intro hmem
        obtain ⟨q, hq, hqe⟩ := List.mem_map.mp hmem
        have hqf : postFile q ∈ (process_posts net (posts.take MAX_POSTS)
            (initLoop st0.fs)).fs := hfil q hq
        have hqp : postFile q = postFile p := by
          unfold postFile
          rw [hqe]
        rw [hfs2]
        apply List.mem_filter.mpr
        refine ⟨hqp ▸ hqf, ?_⟩
        have hcontains : (current_file_names
            (t.map Post.shortcode)).contains (postFile p) = true :=
          List.elem_iff.mpr (mem_current_file_names.mpr hmem)
        simp [staleJpg, hcontains]
        exact Or.inr (mem_current_file_names.mpr hmem)
    have hcongr : (posts.take MAX_POSTS).filter
        (fun p => decide (postFile p ∈ fs2))
          = (posts.take MAX_POSTS).filter
            (fun p => decide (p.shortcode ∈ t.map Post.shortcode)) := by
      apply List.filter_congr
      intro p hp
      simp only [decide_eq_decide]
      exact key p hp
    have hmap : ((posts.take MAX_POSTS).map Post.shortcode).filter
        (fun x => decide (x ∈ t.map Post.shortcode))
          = t.map Post.shortcode :=
      filter_mem_of_sublist (hsub.map Post.shortcode) hnd
    have hmap2 : ((posts.take MAX_POSTS).map Post.shortcode).filter
        (fun x => decide (x ∈ t.map Post.shortcode))
          = ((posts.take MAX_POSTS).filter
              (fun p => decide (p.shortcode ∈ t.map Post.shortcode))).map
                Post.shortcode := by
      rw [List.filter_map]
      rfl
    have hlen := congrArg List.length (hmap.symm.trans hmap2)
    rw [List.length_map, List.length_map] at hlen
    show (t.map postEntry).length = _
    rw [List.length_map, hcongr, hlen]

/-- Witness for C5's amended theorem on a concrete successful run with a
single post `Y`: the 1-entry manifest's length equals the number of
selected records whose cache file exists, and is at most 9. -/
theorem claim_C5_witness :
    (([⟨"https://www.instagram.com/p/Y/", "./data/ig_images/Y.jpg"⟩]
        : List MEntry).length
      = ((sync_instagram netY "sid" stEmpty).selected.filter
          (fun p => decide (postFile p
            ∈ (sync_instagram netY "sid" stEmpty).state.fs))).length)
    ∧ ([⟨"https://www.instagram.com/p/Y/", "./data/ig_images/Y.jpg"⟩]
        : List MEntry).length ≤ MAX_POSTS := by
  have h := claim_C5_amended netY "sid" stEmpty
    [⟨"https://www.instagram.com/p/Y/", "./data/ig_images/Y.jpg"⟩]
    (by decide) (by decide)
  exact ⟨h.2.2.2.2 (by decide), h.2.1⟩

/-! ### Claim C6 -/

/-- C6, counterexample: cleanup only touches files ending in `.jpg`.  A
pre-existing `stale.png` in the cache directory survives a successful
run even though it corresponds to no manifest entry — the cache does not
contain *exactly* the manifest's media files, extras of other extensions
remain. -/
theorem claim_C6_counterexample :
    (sync_instagram netY "sid" stMixed).exitCode = 0
    ∧ "stale.png" ∈ (sync_instagram netY "sid" stMixed).state.fs
    ∧ (sync_instagram netY "sid" stMixed).state.manifest
        = some [⟨"https://www.instagram.com/p/Y/", "./data/ig_images/Y.jpg"⟩]
    ∧ (sync_instagram netY "sid" stMixed).shortcodes = ["Y"]
    ∧ "stale.png" ∉ current_file_names ["Y"] := by decide

/-- C6, amended: after a successful run the cache directory contains
exactly the manifest identifiers' media files *among the `.jpg` files*:
every recorded shortcode's file exists, every `.jpg` file in the cache
is some recorded shortcode's file, and files not ending in `.jpg` are
untouched (they are in the cache after the run exactly when they were
there before); the manifest has one entry per recorded shortcode. -/
theorem claim_C6_amended :
    ∀ (net : Network) (sid : String) (st0 : RunState),
      (sync_instagram net sid st0).exitCode = 0 →
      (∀ sc ∈ (sync_instagram net sid st0).shortcodes,
        (sc ++ ".jpg") ∈ (sync_instagram net sid st0).state.fs)
      ∧ (∀ f ∈ (sync_instagram net sid st0).state.fs, endsWithJpg f = true →
          ∃ sc ∈ (sync_instagram net sid st0).shortcodes, f = sc ++ ".jpg")
      ∧ (∀ f, endsWithJpg f = false →
          ((f ∈ (sync_instagram net sid st0).state.fs) ↔ f ∈ st0.fs))
      ∧ (∀ pd, (sync_instagram net sid st0).state.manifest = some pd →
          pd.length = (sync_instagram net sid st0).shortcodes.length) := by
  intro net sid st0 h0
  obtain ⟨posts, t, fs2, hr, hs, hne, hsub, hpd, hsc, htne, hcl, hfil,
    hgrow, hchar, heq⟩ := sync_success_dissect net sid st0 h0
  rw [heq]
  have hfs2 := cleanup_ok_eq net.removeOk
    (current_file_names (t.map Post.shortcode)) _ _ hcl
  refine ⟨?_, ?_, ?_, ?_⟩
  · intro sc hsc2
    obtain ⟨q, hq, hqe⟩ := List.mem_map.mp hsc2
    have hqf : postFile q ∈ (process_posts net (posts.take MAX_POSTS)
        (initLoop st0.fs)).fs := hfil q hq
    show (sc ++ ".jpg") ∈ fs2
    rw [hfs2]
    apply List.mem_filter.mpr
    have hqe2 : postFile q = sc ++ ".jpg" := by
      unfold postFile
      rw [hqe]
    refine ⟨hqe2 ▸ hqf, ?_⟩
    have hmem : (sc ++ ".jpg") ∈ current_file_names (t.map Post.shortcode) :=
      mem_current_file_names.mpr hsc2
    have hcontains := List.elem_iff.mpr hmem
    simp [staleJpg, hcontains]
    exact Or.inr hmem
  · intro f hf hjpg
    show ∃ sc ∈ t.map Post.shortcode, f = sc ++ ".jpg"
    have hf2 : f ∈ fs2 := hf
    rw [hfs2] at hf2
    obtain ⟨hls, hkeep⟩ := List.mem_filter.mp hf2
    have hstale : staleJpg (current_file_names (t.map Post.shortcode)) f
        = false := by simpa using hkeep
    have hcontains : (current_file_names
        (t.map Post.shortcode)).contains f = true := by
      rcases hcon : (current_file_names (t.map Post.shortcode)).contains f
          with _ | _
      · rw [staleJpg, hjpg, hcon] at hstale
        simp at hstale
      · rfl
    have hmem : f ∈ current_file_names (t.map Post.shortcode) :=
      List.elem_iff.mp hcontains
    obtain ⟨sc, hscm, hsce⟩ := List.mem_map.mp hmem
    exact ⟨sc, hscm, hsce.symm⟩
  · intro f hjpg
    have hkeep : staleJpg (current_file_names (t.map Post.shortcode)) f
        = false := by
      simp [staleJpg, hjpg]
    constructor
    · intro hf
      have hf2 : f ∈ fs2 := hf
      rw [hfs2] at hf2
      obtain ⟨hls, _⟩ := List.mem_filter.mp hf2
      rcases hchar f hls with h | ⟨p, _, hfp⟩
      · exact h
      · exfalso
        rw [hfp] at hjpg
        have := endsWithJpg_concat p.shortcode
        rw [show p.shortcode ++ ".jpg" = postFile p from rfl] at this
        rw [this] at hjpg
        exact Bool.true_eq_false.mp hjpg
    · intro hf
      show f ∈ fs2
      rw [hfs2]
      exact List.mem_filter.mpr ⟨hgrow f hf, by simp [hkeep]⟩
  · intro pd hm
    obtain rfl : t.map postEntry = pd := by simpa using hm
    simp

/-- Witness for C6's amended theorem on a concrete run: the recorded
shortcode `Y`'s file is in the cache afterwards, and the non-jpg file
`stale.png` is in the cache afterwards exactly because it was there
before. -/
theorem claim_C6_witness :
    (("Y" ++ ".jpg") ∈ (sync_instagram netY "sid" stMixed).state.fs)
    ∧ (("stale.png" ∈ (sync_instagram netY "sid" stMixed).state.fs)
        ↔ "stale.png" ∈ stMixed.fs) := by
  have h := claim_C6_amended netY "sid" stMixed (by decide)
  exact ⟨h.1 "Y" (by decide), h.2.2.1 "stale.png" (by decide)⟩

/-! ### Claim C8 -/

/-- C8, counterexample: with an unchanged remote profile (the model is
deterministic, so both runs see identical responses) idempotence fails
when a shortcode occurs twice among the selected posts and only one
occurrence was cached in the first run: the first run's manifest has one
entry, the second run finds the file cached for *both* occurrences and
writes a two-entry manifest — the second manifest differs from the
first. -/
theorem claim_C8_counterexample :
    (sync_instagram netDup "sid" stEmpty).exitCode = 0
    ∧ (sync_instagram netDup "sid"
        (sync_instagram netDup "sid" stEmpty).state).exitCode = 0
    ∧ (sync_instagram netDup "sid"
        (sync_instagram netDup "sid" stEmpty).state).state.manifest
      ≠ (sync_instagram netDup "sid" stEmpty).state.manifest := by decide

/-- C8, amended: if the first run succeeded *and cached every selected
record* (its manifest has one entry per selected post), then a second
run against the same responses succeeds, writes an identical manifest,
performs zero media GET attempts (every selected identifier's file is
already cached and existing files are never re-downloaded), and leaves
the cache directory unchanged. -/
theorem claim_C8_amended :
    ∀ (net : Network) (sid : String) (st0 : RunState) (pd : List MEntry),
      (sync_instagram net sid st0).exitCode = 0 →
      (sync_instagram net sid st0).state.manifest = some pd →
      pd.length = (sync_instagram net sid st0).selected.length →
      (sync_instagram net sid (sync_instagram net sid st0).state).exitCode = 0
      ∧ (sync_instagram net sid
          (sync_instagram net sid st0).state).state.manifest
        = (sync_instagram net sid st0).state.manifest
      ∧ (sync_instagram net sid
          (sync_instagram net sid st0).state).dlAttempts = 0
      ∧ (sync_instagram net sid (sync_instagram net sid st0).state).state.fs
        = (sync_instagram net sid st0).state.fs := by
  intro net sid st0 pd h0 hm hl
  obtain ⟨posts, t, fs2, hr, hs, hne, hsub, hpd, hsc, htne, hcl, hfil,
    hgrow, hchar, heq⟩ := sync_success_dissect net sid st0 h0
  rw [heq] at hm hl ⊢
  obtain rfl : t.map postEntry = pd := by simpa using hm
  obtain rfl : t = posts.take MAX_POSTS := by
    apply hsub.eq_of_length
    simpa using hl
  have hfs2 := cleanup_ok_eq net.removeOk
    (current_file_names ((posts.take MAX_POSTS).map Post.shortcode)) _ _ hcl
  have hall : ∀ p ∈ posts.take MAX_POSTS, postFile p ∈ fs2 := by
    intro p hp
    rw [hfs2]
    apply List.mem_filter.mpr
    refine ⟨hfil p hp, ?_⟩
    have hmem : postFile p ∈ current_file_names
        ((posts.take MAX_POSTS).map Post.shortcode) :=
      mem_current_file_names.mpr (List.mem_map.mpr ⟨p, hp, rfl⟩)
    have hcontains := List.elem_iff.mpr hmem
    simp only [staleJpg, hcontains, Bool.not_true, Bool.and_false,
      Bool.not_false]
  have hnostale : ∀ f ∈ fs2, staleJpg (current_file_names
      ((posts.take MAX_POSTS).map Post.shortcode)) f = false := by
    intro f hf
    rw [hfs2] at hf
    obtain ⟨_, hkeep⟩ := List.mem_filter.mp hf
    simpa using hkeep
  have hrun2 : sync_instagram net sid
      ⟨fs2, some ((posts.take MAX_POSTS).map postEntry)⟩
        = ⟨0, false, ⟨fs2, some ((posts.take MAX_POSTS).map postEntry)⟩,
           posts.take MAX_POSTS, (posts.take MAX_POSTS).map Post.shortcode,
           0⟩ := by
    rcases sync_cases net sid
        ⟨fs2, some ((posts.take MAX_POSTS).map postEntry)⟩ with
      ⟨heqA, hor⟩ | ⟨postsB, hrB, hneB, hsB, heqB⟩
    · exfalso
      rcases hor with h | h | ⟨psC, hC, hCe⟩
      · exact hs h
      · rw [h] at hr
        exact absurd hr (by simp)
      · rw [hr] at hC
        obtain rfl : posts = psC := by injection hC
        rw [hCe] at hne
        exact absurd hne (by simp)
    · obtain rfl : posts = postsB := by
        rw [hr] at hrB
        injection hrB
      rw [heqB]
      have hallB : ∀ p ∈ posts.take MAX_POSTS,
          postFile p ∈ (initLoop (⟨fs2,
            some ((posts.take MAX_POSTS).map postEntry)⟩ : RunState).fs).fs :=
        hall
      rw [process_posts_all_cached net (posts.take MAX_POSTS) _ hallB]
      show syncFinish net _ _ ⟨fs2, [] ++ _, [] ++ _, 0, []⟩ = _
      unfold syncFinish
      simp only [List.nil_append]
      rw [if_neg (by
        intro hempty
        apply htne
        simpa [List.map_eq_nil_iff] using hempty)]
      rw [cleanup_no_stale net.removeOk _ fs2 hnostale]
  rw [hrun2]
  exact ⟨rfl, rfl, rfl, rfl⟩

/-- Witness for C8's amended theorem on a concrete run with one post:
the second run's manifest equals the first's, and the second run issues
zero media GET attempts. -/
theorem claim_C8_witness :
    (sync_instagram netY "sid"
        (sync_instagram netY "sid" stEmpty).state).state.manifest
      = (sync_instagram netY "sid" stEmpty).state.manifest
    ∧ (sync_instagram netY "sid"
        (sync_instagram netY "sid" stEmpty).state).dlAttempts = 0 := by
  have h := claim_C8_amended netY "sid" stEmpty
    [⟨"https://www.instagram.com/p/Y/", "./data/ig_images/Y.jpg"⟩]
    (by decide) (by decide) (by decide)
  exact ⟨h.2.1, h.2.2.1⟩

/-! ### Claim C10 -/

/-- C10, counterexample: the manifest need not contain a duplicate entry
for a twice-occurring identifier.  With posts `Y, X, X` where `X`'s
media URL never downloads, the run succeeds with a manifest holding only
`Y`'s entry — `X` occurs twice in the selected window yet has no entry
at all. -/
theorem claim_C10_counterexample :
    ((sync_instagram netC10 "sid" stEmpty).selected.map Post.shortcode)
      = ["Y", "X", "X"]
    ∧ (sync_instagram netC10 "sid" stEmpty).exitCode = 0
    ∧ (sync_instagram netC10 "sid" stEmpty).state.manifest
        = some [⟨"https://www.instagram.com/p/Y/", "./data/ig_images/Y.jpg"⟩]
    ∧ (sync_instagram netC10 "sid" stEmpty).state.manifest
        ≠ some [⟨"https://www.instagram.com/p/X/", "./data/ig_images/X.jpg"⟩,
                ⟨"https://www.instagram.com/p/X/", "./data/ig_images/X.jpg"⟩] := by
  decide

/-- C10, amended: the loop performs no deduplication — when every
occurrence of the selected posts is processed successfully (here: all
already cached), each occurrence appends its own entry, so a
twice-occurring identifier yields its identical entry twice in the
manifest data; and in any run each identifier is successfully
*downloaded* at most once, because a successful download puts the file
in the cache and later occurrences find it there (the downloaded
shortcodes form a duplicate-free list). -/
theorem claim_C10_amended :
    (∀ (net : Network) (ps : List Post) (st : LoopState),
      (∀ p ∈ ps, postFile p ∈ st.fs) →
      (process_posts net ps st).posts_data = st.posts_data ++ ps.map postEntry
      ∧ (process_posts net ps st).dlAttempts = st.dlAttempts)
    ∧ (∀ (net : Network) (ps : List Post) (fs0 : List String),
        ((process_posts net ps (initLoop fs0)).dlSuccess).Nodup) := by
  constructor
  · intro net ps st h
    rw [process_posts_all_cached net ps st h]
    exact ⟨rfl, rfl⟩
  · intro net ps fs0
    exact process_posts_dlSuccess_nodup net ps (initLoop fs0)
      (by simp [initLoop]) (by simp [initLoop])

/-- Witness for C10's amended theorem: processing the duplicate list
`[X, X]` over a cache that already holds `X.jpg` appends the identical
entry twice and issues no download. -/
theorem claim_C10_witness :
    ((process_posts netY [⟨"X", "u", mkPermalink "X"⟩,
        ⟨"X", "u", mkPermalink "X"⟩] (initLoop ["X.jpg"])).posts_data
      = (initLoop ["X.jpg"]).posts_data
        ++ ([⟨"X", "u", mkPermalink "X"⟩,
             ⟨"X", "u", mkPermalink "X"⟩] : List Post).map postEntry)
    ∧ (process_posts netY [⟨"X", "u", mkPermalink "X"⟩,
        ⟨"X", "u", mkPermalink "X"⟩] (initLoop ["X.jpg"])).dlAttempts
      = (initLoop ["X.jpg"]).dlAttempts
    ∧ ((process_posts netC10 [⟨"Y", "g", mkPermalink "Y"⟩,
        ⟨"X", "b", mkPermalink "X"⟩, ⟨"X", "b", mkPermalink "X"⟩]
        (initLoop [])).dlSuccess).Nodup := by
  have h1 := claim_C10_amended.1 netY
    [⟨"X", "u", mkPermalink "X"⟩, ⟨"X", "u", mkPermalink "X"⟩]
    (initLoop ["X.jpg"]) (by decide)
  exact ⟨h1.1, h1.2, claim_C10_amended.2 netC10 _ []⟩
